import Mathlib

/-!
Verification of the wallet-classification, state-tracking and streaming core
of the repository: shallow embeddings of `wallet_analyzer.py`,
`wallet_classifier.py`, `transaction_parser.py`, `websocket_manager.py` and
`notification_system.py`, with theorems about classification priority and
disjointness, threshold and window boundaries, the wallet-state machine,
alert dedup, balance-delta extraction, and reconnect behaviour.

Modelling conventions: Python `None` becomes `Option.none`; raw integer
balances become `Int`; Python float arithmetic on balances and percentages is
modelled with exact rational arithmetic (`ℚ`); Python `set`s that feed
ordered output are modelled as insertion-ordered duplicate-free lists;
collaborator calls (metadata, holder snapshots, listing time, balance
fetches) become explicit inputs.
-/

namespace Sec

/-- Known system/program addresses excluded from creator and team
classification (`KNOWN_PROGRAM_IDS`, `wallet_analyzer.py` lines 42-47). -/
def knownProgramIds : List String :=
  [ "TokenkegQfeZyiNwAJbNbGKPFXCWuBvf9Ss623VQ5DA"
  , "TokenzQdBNbLqP5VEhdkAS6EPFLC1PHnBqCXEpPxuEb"
  , "11111111111111111111111111111111"
  , "ATokenGPvbdGVxr1b2hvZbsiqW5xWH25efTNsLJA8knL"
  , "metaqbxxUerdq28cj1RbAWkYQm3ybzjb6a8bt518x1s"
  , "BGUMAp9Gq7iTEuizy4pqaxsTyUCBK68MDfK752saRPUY"
  , "SMPLecH534NA9acpos4G6x7uf3LWbCAwZQE9e8ZekMu"
  , "Safe11111111111111111111111111111111111111" ]

/-- Python `set.add` on a set represented as an insertion-ordered
duplicate-free list. -/
def insertNew (l : List String) (w : String) : List String :=
  if w ∈ l then l else l ++ [w]

/-- Token metadata as consumed by the classifiers: every field may be absent
in the collaborator response. -/
structure TokenMeta where
  decimals : Option Int
  totalSupply : Option Int
  mintAuthority : Option String
  freezeAuthority : Option String
deriving Repr, DecidableEq

/-- One token-account entry of the holder snapshot. `owner` is `none` when
the field is missing or empty (both fail the Python truthiness test), and
`amount` is `none` when the `int(...)` conversion of the amount fails. -/
structure HolderAcc where
  owner : Option String
  amount : Option Int
deriving Repr, DecidableEq

/-- One early-transaction record handed to the insider/sniper pass.
A field is `none` when the corresponding Python validation
(`isinstance(tx_timestamp, datetime)`, `not tx_wallet`,
`isinstance(is_buy, bool)`) rejects it; timestamps are seconds. -/
structure TxRec where
  timestamp : Option Int
  wallet : Option String
  isBuy : Option Bool
deriving Repr, DecidableEq

/-- The collaborator responses consumed by one classification run:
metadata, holder snapshot, DEX listing time, early transactions.
`none` marks a failed fetch. -/
structure ClassEnv where
  metadata : Option TokenMeta
  holders : Option (List HolderAcc)
  listingTime : Option Int
  transactions : Option (List TxRec)

/-- Result of `WalletAnalyzer._calculate_classifications`: four role lists
plus the optional error marker. -/
structure Classifications where
  creator : List String
  team : List String
  insider : List String
  sniper : List String
  error : Option String
deriving Repr, DecidableEq

/-- Result of `TransactionDetector.classify_wallets`
(`wallet_classifier.py`): this variant has no creator set. -/
structure Classifications3 where
  team : List String
  insider : List String
  sniper : List String
  error : Option String
deriving Repr, DecidableEq

/-- Update-or-append on an association list: the dict write
`owner_raw_balances[owner] = owner_raw_balances.get(owner, 0) + raw_amount`
(`wallet_analyzer.py` line 177). -/
def addRaw : List (String × Int) → String → Int → List (String × Int)
  | [], o, a => [(o, a)]
  | p :: rest, o, a =>
      if p.1 = o then (p.1, p.2 + a) :: rest else p :: addRaw rest o a

/-- One step of the balance aggregation: entries with a missing owner, an
unparsable amount, or an amount ≤ 0 are skipped
(`wallet_analyzer.py` lines 172-177). -/
def aggStep (acc : List (String × Int)) (h : HolderAcc) : List (String × Int) :=
  match h.owner, h.amount with
  | some o, some a => if 0 < a then addRaw acc o a else acc
  | _, _ => acc

/-- Aggregate raw balances by owner in first-seen order
(`wallet_analyzer.py` lines 171-177). -/
def aggRaw (hs : List HolderAcc) : List (String × Int) :=
  hs.foldl aggStep []

/-- Value of an association list at a key, a missing key reading as 0
(`dict.get(owner, 0)`). -/
def valueAt : List (String × Int) → String → Int
  | [], _ => 0
  | p :: rest, w => (if p.1 = w then p.2 else 0) + valueAt rest w

/-- Contribution of one holder entry to the aggregated balance of wallet
`w`: its amount when it is a positive balance owned by `w`, else 0. -/
def posContribution (h : HolderAcc) (w : String) : Int :=
  match h.owner, h.amount with
  | some o, some a => if o = w ∧ 0 < a then a else 0
  | _, _ => 0

/-- Direct specification of the aggregation: the sum of the positive raw
balances of the token accounts owned by `w`. -/
def posOwnerSum : List HolderAcc → String → Int
  | [], _ => 0
  | h :: rest, w => posContribution h w + posOwnerSum rest w

/-- Percentage of total supply held, exactly as computed in the source:
`balance_decimal = total_raw / 10**decimals` and then
`percentage = balance_decimal / (supply_raw / 10**decimals) * 100`,
with exact rational arithmetic standing in for Python floats. -/
def holdingPercent (supplyRaw : Int) (d : Nat) (totalRaw : Int) : ℚ :=
  ((totalRaw : ℚ) / 10 ^ d) / ((supplyRaw : ℚ) / 10 ^ d) * 100

/-- One step of the team-threshold loop of `_calculate_classifications`
(`wallet_analyzer.py` lines 179-186): the accumulator carries the team list
and the classified set; an owner joins only if at or above the threshold, not
already classified (creators), and not a known program address. -/
def teamStepF (supplyRaw : Int) (d : Nat) (acc : List String × List String)
    (p : String × Int) : List String × List String :=
  if 5 ≤ holdingPercent supplyRaw d p.2 ∧ p.1 ∉ acc.2 ∧ p.1 ∉ knownProgramIds then
    (acc.1 ++ [p.1], acc.2 ++ [p.1])
  else acc

/-- Team pass of `_calculate_classifications` over the aggregated balances,
starting from the already-classified set `cls0` (the creators). -/
def teamPass (supplyRaw : Int) (d : Nat) (cls0 : List String)
    (agg : List (String × Int)) : List String × List String :=
  agg.foldl (teamStepF supplyRaw d) ([], cls0)

/-- Sniper window `(T0, T0 + swSec]` (`wallet_classifier.py` line 200). -/
abbrev inSniperWindow (swSec t0 t : Int) : Prop := t0 < t ∧ t ≤ t0 + swSec

/-- Insider window `(T0 + swSec, T0 + iwSec]`
(`wallet_classifier.py` line 203). -/
abbrev inInsiderWindow (swSec iwSec t0 t : Int) : Prop :=
  t0 + swSec < t ∧ t ≤ t0 + iwSec

/-- One step of the candidate-collection loop over early transactions
(`wallet_classifier.py` lines 183-204): invalid records are skipped, only
buys by not-yet-classified wallets are considered, and the two windows are
checked in order (`if` / `elif`). -/
def windowStepF (swSec iwSec t0 : Int) (classified : List String)
    (acc : List String × List String) (tx : TxRec) : List String × List String :=
  match tx.timestamp, tx.wallet, tx.isBuy with
  | some t, some w, some b =>
    if b = true ∧ w ∉ classified then
      if inSniperWindow swSec t0 t then (insertNew acc.1 w, acc.2)
      else if inInsiderWindow swSec iwSec t0 t then (acc.1, insertNew acc.2 w)
      else acc
    else acc
  | _, _, _ => acc

/-- Candidate-collection pass: returns (sniper candidates, insider
candidates). -/
def windowPass (swSec iwSec t0 : Int) (classified : List String)
    (txs : List TxRec) : List String × List String :=
  txs.foldl (windowStepF swSec iwSec t0 classified) ([], [])

/-- Final assignment of the sniper and insider sets from the candidates
(`wallet_classifier.py` lines 206-210):
`sniper = sniper_candidates - classified`, then snipers are added to the
classified set, then `insider = insider_candidates - classified`. -/
def assignWindowSets (classified : List String)
    (cands : List String × List String) : List String × List String :=
  let sniper := cands.1.filter (fun w => w ∉ classified)
  let insider := cands.2.filter (fun w => w ∉ classified ++ sniper)
  (sniper, insider)

/-- Insider/sniper step shared by both classifiers: skipped entirely when the
listing time or the early-transaction fetch is unavailable. -/
def windowStep (swSec iwSec : Int) (listing : Option Int)
    (txs : Option (List TxRec)) (classified : List String) :
    List String × List String :=
  match listing, txs with
  | some t0, some l => assignWindowSets classified (windowPass swSec iwSec t0 classified l)
  | _, _ => ([], [])

/-- Creator classification from mint and freeze authority
(`wallet_analyzer.py` lines 145-152): present, longer than 30 characters,
and not a known program address. -/
def creatorsOf (md : TokenMeta) : List String :=
  [md.mintAuthority, md.freezeAuthority].foldl (fun acc oa =>
    match oa with
    | some a => if 30 < a.length ∧ a ∉ knownProgramIds then insertNew acc a else acc
    | none => acc) []

/-- The hard-error result of a metadata failure
(`wallet_analyzer.py` lines 156-159): all four sets empty, error set. -/
def metadataAbort (msg : String) : Classifications :=
  { creator := [], team := [], insider := [], sniper := [], error := some msg }

/-- Team step of `_calculate_classifications` (`wallet_analyzer.py` lines
161-192): runs only for positive decimal supply, is skipped when the holder
fetch fails, and otherwise thresholds the aggregated balances. -/
def teamStep (env : ClassEnv) (ts : Int) (d : Nat) (creators : List String) :
    List String × List String :=
  if 0 < (ts : ℚ) / 10 ^ d then
    match env.holders with
    | none => ([], creators)
    | some hs => teamPass ts d creators (aggRaw hs)
  else ([], creators)

/-- Successful-metadata branch of `_calculate_classifications`: creators,
then team, then the insider/sniper window pass over what is still
unclassified, with this module window constants
(`SNIPER_WINDOW_SECONDS = 15`, `INSIDER_WINDOW_MINUTES = 10`,
`wallet_analyzer.py` lines 39-40). -/
def calculateValid (env : ClassEnv) (md : TokenMeta) (d ts : Int) :
    Classifications :=
  let creators := creatorsOf md
  let tc := teamStep env ts d.toNat creators
  let si := windowStep 15 600 env.listingTime env.transactions tc.2
  { creator := creators, team := tc.1, insider := si.2, sniper := si.1,
    error := none }

/-- Metadata validation of `_calculate_classifications` (`wallet_analyzer.py`
lines 135-159): missing decimals or supply, or a negative value for either,
aborts the whole run with a hard error before any classification step. -/
def calculateWithMeta (env : ClassEnv) (md : TokenMeta) : Classifications :=
  match md.decimals, md.totalSupply with
  | some d, some ts =>
    if d < 0 then metadataAbort "Invalid negative decimals"
    else if ts < 0 then metadataAbort "Invalid negative total supply"
    else calculateValid env md d ts
  | _, _ => metadataAbort "Core metadata missing"

/-- Shallow embedding of `WalletAnalyzer._calculate_classifications`
(`wallet_analyzer.py` lines 126-233).  The insider/sniper pass, elided in
that function behind a comment referencing the identical pass of
`TransactionDetector.classify_wallets` (`wallet_classifier.py` lines
177-211), is taken from the latter, instantiated with the window constants
of `wallet_analyzer.py`. -/
def calculateClassifications (env : ClassEnv) : Classifications :=
  match env.metadata with
  | none => metadataAbort "Metadata fetch failed"
  | some md => calculateWithMeta env md

/-- Team pass of `classify_wallets` (`wallet_classifier.py` lines 134-151):
per-owner decimal balances are thresholded with no creator or program
exclusion.  Aggregating decimal balances and dividing the aggregated raw
balance by `10 ^ d` agree exactly in rational arithmetic. -/
def teamPassSimple (supplyRaw : Int) (d : Nat) (agg : List (String × Int)) :
    List String :=
  (agg.filter (fun p => 5 ≤ holdingPercent supplyRaw d p.2)).map (fun p => p.1)

/-- Abort result of `classify_wallets` for missing metadata
(`wallet_classifier.py` lines 98-102). -/
def classifier3Abort : Classifications3 :=
  { team := [], insider := [], sniper := [],
    error := some "Missing or incomplete core metadata" }

/-- Shallow embedding of `TransactionDetector.classify_wallets`
(`wallet_classifier.py` lines 79-227) with its own default window constants
`SNIPER_WINDOW_SECONDS = 10` and `INSIDER_WINDOW_MINUTES = 10` (lines
16-17).  Negative decimals or supply do not abort here: the decimal supply
just stays `0` and the team step is skipped (lines 106-109). -/
def classifyWallets (env : ClassEnv) : Classifications3 :=
  match env.metadata with
  | none => classifier3Abort
  | some md =>
    match md.decimals, md.totalSupply with
    | some d, some ts =>
      let team :=
        if 0 ≤ d ∧ 0 < (ts : ℚ) / 10 ^ d.toNat then
          match env.holders with
          | some hs => teamPassSimple ts d.toNat (aggRaw hs)
          | none => []
        else []
      let si := windowStep 10 600 env.listingTime env.transactions team
      { team := team, insider := si.2, sniper := si.1, error := none }
    | _, _ => classifier3Abort

/-! Wallet state tracker (`wallet_analyzer.py` lines 236-278). -/

/-- One row of the `classified_wallet_token_states` table: the status is
stored as the string written by the source (`"GREEN"` on insert). -/
structure WalletRecord where
  mintAddress : String
  walletAddress : String
  classification : String
  initialRawBalance : Int
  currentStatus : String
deriving Repr, DecidableEq

/-- Existence check of `WalletAnalyzer._check_state_exists`
(`wallet_analyzer.py` lines 274-278). -/
def stateExists (db : List WalletRecord) (m w : String) : Bool :=
  db.any (fun r => r.mintAddress = m ∧ r.walletAddress = w)

/-- Shallow embedding of `WalletAnalyzer.store_initial_wallet_state`
(`wallet_analyzer.py` lines 236-272).  `fetchBal` stands for the
`_fetch_wallet_token_balance_raw` collaborator call, `none` meaning a failed
fetch; on failure or a balance ≤ 0 nothing is written, otherwise one record
with status GREEN and the fetched balance is inserted. -/
def storeInitialWalletState (fetchBal : String → String → Option Int)
    (db : List WalletRecord) (m w cls : String) : List WalletRecord :=
  if stateExists db m w then db
  else
    match fetchBal w m with
    | none => db
    | some b =>
      if b ≤ 0 then db
      else db ++ [{ mintAddress := m, walletAddress := w, classification := cls,
                    initialRawBalance := b, currentStatus := "GREEN" }]

/-! GREEN/YELLOW/RED status machine. -/

/-- Severity levels of a classified wallet having reduced its holdings. -/
inductive WStatus
  | GREEN
  | YELLOW
  | RED
deriving Repr, DecidableEq

/-- Numeric severity: GREEN < YELLOW < RED. -/
def severity : WStatus → Nat
  | .GREEN => 0
  | .YELLOW => 1
  | .RED => 2

/-- Modelled from the spec: the status computed from one balance observation
in `apply_balance_change` (spec section 4.3).  The G/Y/R update logic is
declared but removed from `wallet_analyzer.py` (comment at line 358 and the
simple-alert replacement at lines 280-284), so the retained-fraction rule is
taken from the spec words: `retained_fraction = new_raw / initial_raw`;
RED at or below 0.1 or at zero, YELLOW at or below 0.5, GREEN otherwise. -/
def computedStatus (initialRaw newRaw : Int) : WStatus :=
  if (newRaw : ℚ) / (initialRaw : ℚ) ≤ 1 / 10 ∨ newRaw = 0 then .RED
  else if (newRaw : ℚ) / (initialRaw : ℚ) ≤ 1 / 2 then .YELLOW
  else .GREEN

/-- Modelled from the spec: `apply_balance_change` updates the stored status
only when the computed status is strictly more severe (spec section 4.3). -/
def applyBalanceChange (initialRaw : Int) (cur : WStatus) (newRaw : Int) :
    WStatus :=
  let c := computedStatus initialRaw newRaw
  if severity cur < severity c then c else cur

/-! Real-time alert processing (`wallet_analyzer.py` lines 284-356). -/

/-- One queued activity alert (the dict built at lines 337-340; the formatted
message content is summarized by its parts). -/
structure RTAlert where
  chatId : Int
  tokenAddress : String
  alertType : String
deriving Repr, DecidableEq

/-- The collaborator results used by one real-time processing call: the
parser outputs (`extract_mint_from_tx`, `detect_wallet_actions`), the cached
classification lists by role, and the subscriber list for the involved
token. -/
structure RTEnv where
  extractMint : Option String
  walletActions : List (String × String)
  classifications : Option (List (String × List String))
  subscribers : List Int

/-- Mutable state touched by real-time processing: the Redis
`PROCESSED_REALTIME_TX_PREFIX` markers (TTL elided: one TTL window) and the
notification queue. -/
structure RTState where
  processedSigs : List String
  queued : List RTAlert
deriving Repr, DecidableEq

/-- The `wallet_type_map` lookup (`wallet_analyzer.py` line 316): a dict
comprehension over the role lists, later roles overwriting earlier ones. -/
def walletTypeMap (cls : List (String × List String)) (w : String) :
    Option String :=
  cls.foldl (fun acc p => if w ∈ p.2 then some p.1 else acc) none

/-- Alerts built for one transaction (`wallet_analyzer.py` lines 319-340):
for every acting wallet with a classification, one alert per subscriber. -/
def rtAlerts (cls : List (String × List String)) (subs : List Int)
    (mint : String) (was : List (String × String)) : List RTAlert :=
  was.foldl (fun acc wa =>
    match walletTypeMap cls wa.1 with
    | some t =>
        acc ++ subs.map (fun c =>
          { chatId := c, tokenAddress := mint, alertType := t ++ "_activity_alert" })
    | none => acc) []

/-- Shallow embedding of
`WalletAnalyzer.process_realtime_transaction_simple_alert`
(`wallet_analyzer.py` lines 284-356).  The signature dedup marker is checked
first and recorded immediately afterwards — before parsing, enqueueing or any
delivery; every later return leaves the marker in place.  Queued alerts are
handed to the dispatcher, one delivery per queued alert. -/
def processRealtimeTx (env : RTEnv) (s : RTState) (sig : Option String) :
    RTState :=
  match sig with
  | none => s
  | some sg =>
    if sg ∈ s.processedSigs then s
    else
      let s1 : RTState := { s with processedSigs := s.processedSigs ++ [sg] }
      match env.extractMint with
      | none => s1
      | some mint =>
        if env.walletActions = [] then s1
        else
          match env.classifications with
          | none => s1
          | some cls =>
            { s1 with
              queued := s1.queued ++ rtAlerts cls env.subscribers mint env.walletActions }

/-! Transaction event extractor (`transaction_parser.py`). -/

/-- One pre/post token-balance entry.  `owner` and `mint` are `none` when
missing; an empty string is a present-but-falsy value, distinguished because
registration in `balances_by_idx_mint` tests `is not None` while the
owner/mint maps test truthiness. -/
structure BalEntry where
  accountIndex : Option Nat
  mint : Option String
  owner : Option String
  amount : Int
deriving Repr, DecidableEq

/-- Python truthiness of an optional string field. -/
def truthy : Option String → Bool
  | some v => v ≠ ""
  | none => false

/-- One step of the last-occurrence lookup: an entry overwrites the value
when it carries this truthy owner/mint key. -/
def mapStep (o m : String) (acc : Int) (b : BalEntry) : Int :=
  if b.owner = some o ∧ b.mint = some m ∧ truthy b.owner ∧ truthy b.mint
  then b.amount else acc

/-- Last-occurrence lookup of the dict comprehensions building `pre_map` and
`post_map` (`transaction_parser.py` lines 87-88): only entries with truthy
owner and mint are kept, and a missing key reads as 0 (`dict.get(..., 0)`). -/
def mapAmt (l : List BalEntry) (o m : String) : Int :=
  l.foldl (mapStep o m) 0

/-- Whether `balances_by_idx_mint` holds key `(i, m)`
(`transaction_parser.py` lines 59-69): some pre or post entry must carry
accountIndex, mint and owner all present (`is not None`). -/
def idxRegistered (pre post : List BalEntry) (i : Nat) (m : String) : Bool :=
  (pre ++ post).any (fun b =>
    b.accountIndex = some i ∧ b.mint = some m ∧ b.owner.isSome)

/-- The delta pass of `_calculate_balance_changes` runs only when some post
entry carries accountIndex and mint and resolves in `balances_by_idx_mint`
(`transaction_parser.py` lines 72-77); otherwise the per-key diff loop is
never reached and no changes are produced. -/
def diffPassRuns (pre post : List BalEntry) : Bool :=
  post.any (fun b =>
    match b.accountIndex, b.mint with
    | some i, some m => idxRegistered pre post i m
    | _, _ => false)

/-- The owner/mint key set `all_keys` of the pre and post maps
(`transaction_parser.py` line 90), as a duplicate-free list. -/
def ownerMintKeys (pre post : List BalEntry) : List (String × String) :=
  ((pre ++ post).filterMap (fun b =>
    match b.owner, b.mint with
    | some o, some m => if o ≠ "" ∧ m ≠ "" then some (o, m) else none
    | _, _ => none)).dedup

/-- Shallow embedding of
`TransactionParser._calculate_balance_changes`
(`transaction_parser.py` lines 43-105): when the diff pass runs, the output
holds one `(wallet, mint, delta)` triple for every owner/mint key whose
post-minus-pre delta is non-zero (the per-post-entry recomputation in the
source is idempotent, so one pass over the keys gives the same dict). -/
def calcBalanceChanges (pre post : List BalEntry) :
    List (String × String × Int) :=
  if diffPassRuns pre post then
    (ownerMintKeys pre post).filterMap (fun k =>
      let d := mapAmt post k.1 k.2 - mapAmt pre k.1 k.2
      if d ≠ 0 then some (k.1, k.2, d) else none)
  else []

/-- The `meta` object of a raw transaction record: execution error plus the
two balance snapshots.  `err` is `none` for a successful transaction. -/
structure TxMeta where
  err : Option String
  preTokenBalances : List BalEntry
  postTokenBalances : List BalEntry
deriving Repr, DecidableEq

/-- A raw transaction record as consumed by `parse_transaction_for_event`. -/
structure TxData where
  meta : Option TxMeta
  signatures : List String
  blockTime : Option Int
deriving Repr, DecidableEq

/-- Default for a missing `meta` field (`tx_data.get("meta", \x7b\x7d)`). -/
def emptyMeta : TxMeta :=
  { err := none, preTokenBalances := [], postTokenBalances := [] }

/-- The normalized event produced by the extractor. -/
structure ParsedEvent where
  eventType : String
  timestamp : Int
  signature : String
  involvedWallets : List String
  tokenChanges : List (String × String × Int)
deriving Repr, DecidableEq

/-- The three outcomes of `parse_transaction_for_event`: the Python `None`
returns (failed transaction, no token activity), a parsed event, or the
caught-exception error dict of line 180 (missing signature or blockTime). -/
inductive ParseResult
  | skipped
  | event (e : ParsedEvent)
  | parseFailure (sig : String)
deriving Repr, DecidableEq

/-- Shallow embedding of `TransactionParser.parse_transaction_for_event`
(`transaction_parser.py` lines 109-180): a transaction with an execution
error in its metadata is dropped before anything else; a missing or empty
signature or missing blockTime raises and yields the error result; an empty
change set yields no event; otherwise the event carries the balance deltas
and the deduplicated involved wallets. -/
def parseTransactionForEvent (tx : TxData) : ParseResult :=
  let meta := tx.meta.getD emptyMeta
  if meta.err.isSome then ParseResult.skipped
  else
    match tx.signatures.head? with
    | none => ParseResult.parseFailure ""
    | some sg =>
      if sg = "" then ParseResult.parseFailure ""
      else
        match tx.blockTime with
        | none => ParseResult.parseFailure sg
        | some bt =>
          let changes := calcBalanceChanges meta.preTokenBalances meta.postTokenBalances
          if changes = [] then ParseResult.skipped
          else ParseResult.event
            { eventType := "TOKEN_ACTIVITY", timestamp := bt, signature := sg,
              involvedWallets := (changes.map (fun c => c.1)).dedup,
              tokenChanges := changes }

/-! Stream subscription manager (`websocket_manager.py`). -/

/-- Accounts (mint/wallet addresses) are opaque identifiers. -/
abbrev Account := Nat

/-- `MAX_ACCOUNTS_PER_SUBSCRIPTION` (`websocket_manager.py` line 26). -/
def maxAccountsPerSubscription : Nat := 45000

/-- The `helius_subscription_details` dict (`websocket_manager.py` lines
63-67): assigned subscription id, last local request id, and the account set
the active subscription currently filters on. -/
structure SubDetails where
  heliusId : Option Nat
  localRequestId : Option Nat
  activeFilterAccounts : List Account
deriving Repr, DecidableEq

/-- Subscription-relevant state of `WebSocketManager`: connection flag, the
intended monitor set (insertion-ordered, duplicate-free), and the confirmed
subscription details. -/
structure WSState where
  connected : Bool
  intendedAccountsToMonitor : List Account
  details : SubDetails
deriving Repr, DecidableEq

/-- The in-flight-state reset at the top of `WebSocketManager.connect`
(`websocket_manager.py` lines 76-80), performed before every (re)connection
attempt: subscription id, request id and confirmed filter set are cleared;
the intended set is not touched. -/
def connectClear (s : WSState) : WSState :=
  { s with details := { heliusId := none, localRequestId := none,
                        activeFilterAccounts := [] } }

/-- Python set equality between the intended and active account sets
(`websocket_manager.py` line 271). -/
def sameSet (a b : List Account) : Bool :=
  a.all (fun x => x ∈ b) && b.all (fun x => x ∈ a)

/-- Shallow embedding of `WebSocketManager._update_helius_subscription`
(`websocket_manager.py` lines 262-316).  Returns the updated state together
with the `accountInclude` list of the `transactionSubscribe` request sent,
if any.  `reqId` stands for the locally generated request id and `sendOk`
for success of the socket send (on failure the optimistic filter update is
rolled back and nothing reaches the upstream). -/
def updateHeliusSubscription (s : WSState) (reqId : Nat) (sendOk : Bool) :
    WSState × Option (List Account) :=
  if s.connected = false then (s, none)
  else if sameSet s.intendedAccountsToMonitor s.details.activeFilterAccounts then
    (s, none)
  else if s.intendedAccountsToMonitor = [] then
    ({ s with details := { s.details with activeFilterAccounts := [] } }, none)
  else
    let l :=
      if maxAccountsPerSubscription < s.intendedAccountsToMonitor.length then
        s.intendedAccountsToMonitor.take maxAccountsPerSubscription
      else s.intendedAccountsToMonitor
    let d1 : SubDetails :=
      { heliusId := s.details.heliusId, localRequestId := some reqId,
        activeFilterAccounts := l }
    let s1 := { s with details := d1 }
    if sendOk then (s1, some l)
    else ({ s1 with details := { d1 with
              activeFilterAccounts := s.details.activeFilterAccounts } }, none)

/-! Alert dispatcher (`notification_system.py`). -/

/-- Queue/consumer state of `NotificationSystem`: the running flag and the
queue, whose `none` entry is the shutdown sentinel. -/
structure NSState where
  running : Bool
  queue : List (Option RTAlert)
deriving Repr, DecidableEq

/-- State after `__init__` (`notification_system.py` lines 46-47). -/
def nsInitial : NSState := { running := false, queue := [] }

/-- `NotificationSystem.start` (`notification_system.py` lines 51-57). -/
def nsStart (s : NSState) : NSState :=
  if s.running then s else { s with running := true }

/-- `NotificationSystem.stop` (`notification_system.py` lines 59-77): clears
the running flag and enqueues the `None` sentinel. -/
def nsStop (s : NSState) : NSState :=
  if s.running then { running := false, queue := s.queue ++ [none] } else s

/-- Shallow embedding of `NotificationSystem.queue_notification`
(`notification_system.py` lines 194-222): when the dispatcher is not running
the call logs a warning and returns without touching the queue and without
raising; otherwise the alert is appended. -/
def queueNotification (s : NSState) (n : RTAlert) : NSState :=
  if s.running = false then s
  else { s with queue := s.queue ++ [some n] }

/-! Concrete scenarios used by the boundary theorems. -/

/-- The concrete classification environment for the window-boundary checks:
valid metadata, an empty holder list, listing time `t0`, and three valid
buys at `t0 + 14` seconds, `t0 + 16` seconds and `t0 + 660` seconds
(11 minutes). -/
def c2Env (t0 : Int) : ClassEnv :=
  { metadata := some { decimals := some 0, totalSupply := some 100,
                       mintAuthority := none, freezeAuthority := none }
  , holders := some []
  , listingTime := some t0
  , transactions := some
      [ { timestamp := some (t0 + 14), wallet := some "w14", isBuy := some true }
      , { timestamp := some (t0 + 16), wallet := some "w16", isBuy := some true }
      , { timestamp := some (t0 + 660), wallet := some "w660", isBuy := some true } ] }

/-- The over-limit intended set for the truncation counterexample. -/
def c8Big : WSState :=
  { connected := true, intendedAccountsToMonitor := List.range 45001,
    details := { heliusId := none, localRequestId := none,
                 activeFilterAccounts := [] } }

/-! Theorems. -/

/-- Whenever processing is not suppressed by an existing marker, the
signature marker is recorded even when nothing is parsed, enqueued or
delivered afterwards. -/
theorem processRealtimeTx_marks (env : RTEnv) (s : RTState) (sg : String)
    (h : sg ∉ s.processedSigs) :
    (processRealtimeTx env s (some sg)).processedSigs
      = s.processedSigs ++ [sg] := by
  simp only [processRealtimeTx]
  rw [if_neg h]
  cases env.extractMint with
  | none => rfl
  | some mint =>
    dsimp only
    by_cases ha : env.walletActions = []
    · rw [if_pos ha]
    · rw [if_neg ha]
      cases env.classifications <;> rfl

/-- Reprocessing a transaction whose signature is already marked is a no-op. -/
theorem processRealtimeTx_marked_noop (env : RTEnv) (s : RTState) (sg : String)
    (h : sg ∈ s.processedSigs) :
    processRealtimeTx env s (some sg) = s := by
  simp only [processRealtimeTx]
  rw [if_pos h]

/-- C3 (amended): the real-time dedup marker is keyed by transaction
signature alone; it is checked before any parsing or enqueue and recorded
immediately after the check — before, not after, any delivery attempt — so
processing the same transaction twice is idempotent and alerts for a given
signature are enqueued (hence delivered) at most once. -/
theorem C3_amended_signature_dedup_idempotent (env : RTEnv) (s : RTState)
    (sig : Option String) :
    processRealtimeTx env (processRealtimeTx env s sig) sig
      = processRealtimeTx env s sig ∧
    (∀ sg, sig = some sg → sg ∈ (processRealtimeTx env s sig).processedSigs) := by
  constructor
  · cases sig with
    | none => rfl
    | some sg =>
      by_cases h : sg ∈ s.processedSigs
      · rw [processRealtimeTx_marked_noop env s sg h,
            processRealtimeTx_marked_noop env s sg h]
      · apply processRealtimeTx_marked_noop
        rw [processRealtimeTx_marks env s sg h]
        simp
  · intro sg hsig
    subst hsig
    by_cases h : sg ∈ s.processedSigs
    · rw [processRealtimeTx_marked_noop env s sg h]; exact h
    · rw [processRealtimeTx_marks env s sg h]; simp

/-- Witness for C3 (amended) at a concrete transaction. -/
theorem C3_witness :
    processRealtimeTx ⟨some "MintX", [("w1", "buy")], some [("creator", ["w1"])], [7]⟩
        (processRealtimeTx ⟨some "MintX", [("w1", "buy")], some [("creator", ["w1"])], [7]⟩
          ⟨[], []⟩ (some "sigA")) (some "sigA")
      = processRealtimeTx ⟨some "MintX", [("w1", "buy")], some [("creator", ["w1"])], [7]⟩
          ⟨[], []⟩ (some "sigA") ∧
    "sigA" ∈ (processRealtimeTx ⟨some "MintX", [("w1", "buy")], some [("creator", ["w1"])], [7]⟩
        ⟨[], []⟩ (some "sigA")).processedSigs := by
  refine ⟨(C3_amended_signature_dedup_idempotent _ _ _).1, ?_⟩
  exact (C3_amended_signature_dedup_idempotent
    ⟨some "MintX", [("w1", "buy")], some [("creator", ["w1"])], [7]⟩
    ⟨[], []⟩ (some "sigA")).2 "sigA" rfl

/-- C3 counterexample: the claim says the dedup marker is recorded only
after a delivery attempt, never before.  In the code the marker is written
immediately after the existence check: processing a transaction whose
parsing finds no wallet actions records the marker while enqueueing and
delivering nothing, and a later reprocessing of the same signature — now
with a classified acting wallet — is suppressed by that marker, so zero
notifications are ever delivered for it, not exactly one. -/
theorem C3_counterexample :
    (processRealtimeTx ⟨some "MintX", [], some [("creator", ["w1"])], [7]⟩
        ⟨[], []⟩ (some "sigA")).processedSigs = ["sigA"] ∧
    (processRealtimeTx ⟨some "MintX", [], some [("creator", ["w1"])], [7]⟩
        ⟨[], []⟩ (some "sigA")).queued = [] ∧
    (processRealtimeTx ⟨some "MintX", [("w1", "buy")], some [("creator", ["w1"])], [7]⟩
        (processRealtimeTx ⟨some "MintX", [], some [("creator", ["w1"])], [7]⟩
          ⟨[], []⟩ (some "sigA")) (some "sigA")).queued = [] := by
  decide

/-- C7: a state record for a (mint, wallet) pair is created at most once:
an existing record, a failed balance fetch, or a fetched balance ≤ 0 each
leave the store untouched; otherwise exactly one record with status GREEN
and the fetched balance is appended, and a repeated call (with any
classification) is a no-op. -/
theorem C7_initial_state_once (fetchBal : String → String → Option Int)
    (db : List WalletRecord) (m w cls cls2 : String) :
    (stateExists db m w = true →
      storeInitialWalletState fetchBal db m w cls = db) ∧
    (fetchBal w m = none →
      storeInitialWalletState fetchBal db m w cls = db) ∧
    (∀ b, fetchBal w m = some b → b ≤ 0 →
      storeInitialWalletState fetchBal db m w cls = db) ∧
    (∀ b, fetchBal w m = some b → 0 < b → stateExists db m w = false →
      storeInitialWalletState fetchBal db m w cls
        = db ++ [{ mintAddress := m, walletAddress := w, classification := cls,
                   initialRawBalance := b, currentStatus := "GREEN" }]) ∧
    storeInitialWalletState fetchBal
        (storeInitialWalletState fetchBal db m w cls) m w cls2
      = storeInitialWalletState fetchBal db m w cls := by
  refine ⟨?_, ?_, ?_, ?_, ?_⟩
  · intro h; simp [storeInitialWalletState, h]
  · intro h; simp [storeInitialWalletState, h]
  · intro b hb hle; simp [storeInitialWalletState, hb, hle]
  · intro b hb hpos hne
    simp [storeInitialWalletState, hb, hne, show ¬b ≤ 0 by omega]
  · by_cases h : stateExists db m w = true
    · have h1 : storeInitialWalletState fetchBal db m w cls = db := by
        simp [storeInitialWalletState, h]
      rw [h1]
      simp [storeInitialWalletState, h]
    · cases hb : fetchBal w m with
      | none =>
        have h1 : storeInitialWalletState fetchBal db m w cls = db := by
          simp [storeInitialWalletState, hb]
        rw [h1]
        simp [storeInitialWalletState, hb]
      | some b =>
        by_cases hle : b ≤ 0
        · have h1 : storeInitialWalletState fetchBal db m w cls = db := by
            simp [storeInitialWalletState, hb, hle]
          rw [h1]
          simp [storeInitialWalletState, hb, hle]
        · have h1 : storeInitialWalletState fetchBal db m w cls
              = db ++ [{ mintAddress := m, walletAddress := w,
                         classification := cls, initialRawBalance := b,
                         currentStatus := "GREEN" }] := by
            simp [storeInitialWalletState, hb, h, hle]
          rw [h1]
          have hex : stateExists
              (db ++ [{ mintAddress := m, walletAddress := w,
                        classification := cls, initialRawBalance := b,
                        currentStatus := "GREEN" }]) m w = true := by
            simp [stateExists]
          simp [storeInitialWalletState, hex]

/-- Witness for C7 at a concrete store, wallet and balance fetch. -/
theorem C7_witness :
    storeInitialWalletState (fun _ _ => some 42) [] "M" "W" "team"
      = [{ mintAddress := "M", walletAddress := "W", classification := "team",
           initialRawBalance := 42, currentStatus := "GREEN" }] ∧
    storeInitialWalletState (fun _ _ => some 0) [] "M" "W" "team" = [] := by
  constructor
  · exact (C7_initial_state_once (fun _ _ => some 42) [] "M" "W" "team"
      "team").2.2.2.1 42 rfl (by decide) (by decide)
  · exact (C7_initial_state_once (fun _ _ => some 0) [] "M" "W" "team"
      "team").2.2.1 0 rfl (by decide)

/-- One status update never lowers severity. -/
theorem severity_le_applyBalanceChange (initialRaw : Int) (cur : WStatus)
    (n : Int) :
    severity cur ≤ severity (applyBalanceChange initialRaw cur n) := by
  by_cases h : severity cur < severity (computedStatus initialRaw n)
  · simp only [applyBalanceChange]
    rw [if_pos h]
    omega
  · simp only [applyBalanceChange]
    rw [if_neg h]

/-- Severity is monotone along any observation sequence. -/
theorem severity_le_foldl (initialRaw : Int) (obs : List Int) :
    ∀ cur, severity cur ≤ severity (obs.foldl (applyBalanceChange initialRaw) cur) := by
  induction obs with
  | nil => intro cur; exact Nat.le_refl _
  | cons o rest ih =>
    intro cur
    exact Nat.le_trans (severity_le_applyBalanceChange initialRaw cur o)
      (ih (applyBalanceChange initialRaw cur o))

/-- C6: the per-(mint, wallet) status machine is monotone one-directional:
along any sequence of balance observations severity never decreases (never
YELLOW back to GREEN nor RED back to YELLOW); an update whose computed
status is not more severe is a no-op; the computed status is RED when the
retained fraction is at or below 0.1 or the balance reaches zero, YELLOW
when it is above 0.1 but at or below 0.5, and a strictly more severe
computed status is installed. -/
theorem C6_status_monotone (initialRaw newRaw : Int) (cur : WStatus)
    (obs : List Int) :
    severity cur ≤ severity (obs.foldl (applyBalanceChange initialRaw) cur) ∧
    (severity (computedStatus initialRaw newRaw) ≤ severity cur →
      applyBalanceChange initialRaw cur newRaw = cur) ∧
    ((newRaw : ℚ) / (initialRaw : ℚ) ≤ 1 / 10 ∨ newRaw = 0 →
      computedStatus initialRaw newRaw = WStatus.RED) ∧
    (1 / 10 < (newRaw : ℚ) / (initialRaw : ℚ) → newRaw ≠ 0 →
      (newRaw : ℚ) / (initialRaw : ℚ) ≤ 1 / 2 →
      computedStatus initialRaw newRaw = WStatus.YELLOW) ∧
    (severity cur < severity (computedStatus initialRaw newRaw) →
      applyBalanceChange initialRaw cur newRaw
        = computedStatus initialRaw newRaw) := by
  refine ⟨severity_le_foldl initialRaw obs cur, ?_, ?_, ?_, ?_⟩
  · intro h
    simp only [applyBalanceChange]
    rw [if_neg (by omega)]
  · intro h
    unfold computedStatus
    rw [if_pos h]
  · intro h1 h2 h3
    unfold computedStatus
    rw [if_neg (by push_neg; exact ⟨h1, h2⟩), if_pos h3]
  · intro h
    simp only [applyBalanceChange]
    rw [if_pos h]

/-- Witness for C6 at concrete balances: initial 1000, observations dropping
to 400 (YELLOW) and 50 (RED), plus the single-step facts at 900, 400, 50. -/
theorem C6_witness :
    severity WStatus.GREEN
        ≤ severity ([400, 900, 50].foldl (applyBalanceChange 1000) WStatus.GREEN) ∧
    applyBalanceChange 1000 WStatus.YELLOW 900 = WStatus.YELLOW ∧
    computedStatus 1000 50 = WStatus.RED ∧
    computedStatus 1000 400 = WStatus.YELLOW ∧
    applyBalanceChange 1000 WStatus.GREEN 400 = WStatus.YELLOW := by
  refine ⟨(C6_status_monotone 1000 50 WStatus.GREEN [400, 900, 50]).1, ?_, ?_, ?_, ?_⟩
  · exact (C6_status_monotone 1000 900 WStatus.YELLOW []).2.1
      (by norm_num [computedStatus, severity])
  · exact (C6_status_monotone 1000 50 WStatus.GREEN []).2.2.1 (by norm_num)
  · exact (C6_status_monotone 1000 400 WStatus.GREEN []).2.2.2.1
      (by norm_num) (by norm_num) (by norm_num)
  · have h := (C6_status_monotone 1000 400 WStatus.GREEN []).2.2.2.2
      (by norm_num [computedStatus, severity])
    rw [h]
    norm_num [computedStatus]

/-- C10: an alert submitted while the dispatcher is not running — before
start or after stop — is silently discarded: the call returns the state
unchanged (total, so no error is raised), the alert never enters the queue,
and so it is never delivered by the consumer. -/
theorem C10_discard_when_not_running (s : NSState) (n : RTAlert) :
    (s.running = false → queueNotification s n = s) ∧
    nsInitial.running = false ∧
    (nsStop s).running = false ∧
    (s.running = false → some n ∉ s.queue →
      some n ∉ (queueNotification s n).queue) := by
  refine ⟨?_, rfl, ?_, ?_⟩
  · intro h
    unfold queueNotification
    rw [if_pos h]
  · cases hb : s.running <;> simp [nsStop, hb]
  · intro h hn
    unfold queueNotification
    rw [if_pos h]
    exact hn

/-- C5: missing decimals or total supply, or a negative value for either,
makes `_calculate_classifications` abort: the result is exactly the
hard-error value with all four role sets empty and the error marker set,
and no other classification step runs. -/
theorem C5_metadata_abort (env : ClassEnv)
    (h : env.metadata = none ∨ ∃ md, env.metadata = some md ∧
          (md.decimals = none ∨ md.totalSupply = none ∨
           (∃ d, md.decimals = some d ∧ d < 0) ∨
           (∃ ts, md.totalSupply = some ts ∧ ts < 0))) :
    (∃ msg, calculateClassifications env = metadataAbort msg) ∧
    (calculateClassifications env).creator = [] ∧
    (calculateClassifications env).team = [] ∧
    (calculateClassifications env).insider = [] ∧
    (calculateClassifications env).sniper = [] ∧
    (calculateClassifications env).error.isSome = true := by
  have key : ∃ msg, calculateClassifications env = metadataAbort msg := by
    rcases h with h | ⟨md, hmd, hc⟩
    · exact ⟨"Metadata fetch failed", by simp [calculateClassifications, h]⟩
    · simp only [calculateClassifications, hmd]
      rcases hc with hdec | hts | ⟨d, hdec, hd⟩ | ⟨ts, hts, hneg⟩
      · cases hts : md.totalSupply <;>
          exact ⟨"Core metadata missing", by simp [calculateWithMeta, hdec, hts]⟩
      · cases hdec : md.decimals <;>
          exact ⟨"Core metadata missing", by simp [calculateWithMeta, hdec, hts]⟩
      · cases hts : md.totalSupply with
        | none => exact ⟨"Core metadata missing", by simp [calculateWithMeta, hdec, hts]⟩
        | some ts =>
          exact ⟨"Invalid negative decimals",
            by simp [calculateWithMeta, hdec, hts, hd]⟩
      · cases hdec : md.decimals with
        | none => exact ⟨"Core metadata missing", by simp [calculateWithMeta, hdec, hts]⟩
        | some d =>
          by_cases hd : d < 0
          · exact ⟨"Invalid negative decimals",
              by simp [calculateWithMeta, hdec, hts, hd]⟩
          · exact ⟨"Invalid negative total supply",
              by simp [calculateWithMeta, hdec, hts, hd, hneg]⟩
  obtain ⟨msg, hm⟩ := key
  rw [hm]
  exact ⟨⟨msg, rfl⟩, rfl, rfl, rfl, rfl, rfl⟩

/-- Witness for C5: metadata with negative decimals aborts with all four
sets empty and the error marker set. -/
theorem C5_witness :
    (calculateClassifications
        ⟨some ⟨some (-1), some 5, none, none⟩, none, none, none⟩).creator = [] ∧
    (calculateClassifications
        ⟨some ⟨some (-1), some 5, none, none⟩, none, none, none⟩).error.isSome = true := by
  have h := C5_metadata_abort
    ⟨some ⟨some (-1), some 5, none, none⟩, none, none, none⟩
    (Or.inr ⟨⟨some (-1), some 5, none, none⟩, rfl,
      Or.inr (Or.inr (Or.inl ⟨-1, rfl, by decide⟩))⟩)
  exact ⟨h.2.1, h.2.2.2.2.2⟩

/-- Evaluation of `classify_wallets` on the boundary scenario: with the
default 10-second sniper window, the 14-second and 16-second buys both land
in the insider set and the 11-minute buy in neither set. -/
theorem classifyWallets_c2Env (t0 : Int) :
    classifyWallets (c2Env t0)
      = { team := [], insider := ["w14", "w16"], sniper := [], error := none } := by
  have h14s : ¬ inSniperWindow 10 t0 (t0 + 14) := by
    simp only [inSniperWindow, not_and]; omega
  have h14i : inInsiderWindow 10 600 t0 (t0 + 14) := by
    constructor <;> omega
  have h16s : ¬ inSniperWindow 10 t0 (t0 + 16) := by
    simp only [inSniperWindow, not_and]; omega
  have h16i : inInsiderWindow 10 600 t0 (t0 + 16) := by
    constructor <;> omega
  have h660s : ¬ inSniperWindow 10 t0 (t0 + 660) := by
    simp only [inSniperWindow, not_and]; omega
  have h660i : ¬ inInsiderWindow 10 600 t0 (t0 + 660) := by
    simp only [inInsiderWindow, not_and]; omega
  have step1 : windowStepF 10 600 t0 [] ([], [])
      ⟨some (t0 + 14), some "w14", some true⟩ = ([], ["w14"]) := by
    simp only [windowStepF]
    rw [if_pos (show True ∧ "w14" ∉ ([] : List String) by simp),
        if_neg h14s, if_pos h14i]
    simp [insertNew]
  have step2 : windowStepF 10 600 t0 [] ([], ["w14"])
      ⟨some (t0 + 16), some "w16", some true⟩ = ([], ["w14", "w16"]) := by
    simp only [windowStepF]
    rw [if_pos (show True ∧ "w16" ∉ ([] : List String) by simp),
        if_neg h16s, if_pos h16i]
    simp [insertNew]
  have step3 : windowStepF 10 600 t0 [] ([], ["w14", "w16"])
      ⟨some (t0 + 660), some "w660", some true⟩ = ([], ["w14", "w16"]) := by
    simp only [windowStepF]
    rw [if_pos (show True ∧ "w660" ∉ ([] : List String) by simp),
        if_neg h660s, if_neg h660i]
  have hw : windowPass 10 600 t0 []
      [ ⟨some (t0 + 14), some "w14", some true⟩
      , ⟨some (t0 + 16), some "w16", some true⟩
      , ⟨some (t0 + 660), some "w660", some true⟩ ] = ([], ["w14", "w16"]) := by
    unfold windowPass
    rw [List.foldl_cons, step1, List.foldl_cons, step2, List.foldl_cons, step3,
        List.foldl_nil]
  norm_num [classifyWallets, c2Env, teamPassSimple, aggRaw, windowStep, hw,
    assignWindowSets]

/-- C2 counterexample: the claim says that under the default windows a buy
at `T0 + 14` seconds is assigned to the sniper set.  The classifier default
is `SNIPER_WINDOW_SECONDS = 10` (`wallet_classifier.py` line 17), not 15:
at listing time 0 the 14-second buy lands in the insider set and the sniper
set stays empty. -/
theorem C2_counterexample :
    "w14" ∈ (classifyWallets (c2Env 0)).insider ∧
    "w14" ∉ (classifyWallets (c2Env 0)).sniper ∧
    (classifyWallets (c2Env 0)).sniper = [] := by
  rw [classifyWallets_c2Env 0]
  refine ⟨by simp, by simp, rfl⟩

/-- C2 (amended): under the classifier default windows — sniper
`(T0, T0 + 10s]`, insider `(T0 + 10s, T0 + 10min]` — a buy at `T0 + 14s`
and a buy at `T0 + 16s` are both assigned to the insider set, a buy at
`T0 + 11min` to neither set, and the two windows are non-overlapping. -/
theorem C2_amended_window_boundaries (t0 : Int) :
    (classifyWallets (c2Env t0)).sniper = [] ∧
    (classifyWallets (c2Env t0)).insider = ["w14", "w16"] ∧
    "w660" ∉ (classifyWallets (c2Env t0)).insider ∧
    "w660" ∉ (classifyWallets (c2Env t0)).sniper ∧
    (∀ t, ¬ (inSniperWindow 10 t0 t ∧ inInsiderWindow 10 600 t0 t)) := by
  rw [classifyWallets_c2Env t0]
  refine ⟨rfl, rfl, by simp, by simp, ?_⟩
  intro t ⟨hs, hi⟩
  simp only [inSniperWindow, inInsiderWindow] at hs hi
  omega

/-- Witness for C2 (amended) at listing time 5 and probe time 7. -/
theorem C2_witness :
    (classifyWallets (c2Env 5)).insider = ["w14", "w16"] ∧
    ¬ (inSniperWindow 10 5 7 ∧ inInsiderWindow 10 600 5 7) := by
  exact ⟨(C2_amended_window_boundaries 5).2.1,
    (C2_amended_window_boundaries 5).2.2.2.2 7⟩

/-- The Python set equality test against an empty confirmed set fails for a
non-empty intended set. -/
theorem sameSet_nil_of_ne (l : List Account) (h : l ≠ []) :
    sameSet l [] = false := by
  cases l with
  | nil => exact absurd rfl h
  | cons a t => simp [sameSet]

/-- No branch of the subscription-update step mutates the intended set. -/
theorem updateHelius_intended (s : WSState) (reqId : Nat) (ok : Bool) :
    (updateHeliusSubscription s reqId ok).1.intendedAccountsToMonitor
      = s.intendedAccountsToMonitor := by
  unfold updateHeliusSubscription
  split_ifs <;> rfl

/-- C8 (amended): the reset performed on every (re)connection attempt leaves
the intended tracked-account set unchanged and clears the confirmed
subscription state, no subscription-update path mutates the intended set,
and the first filter-replacement request sent after the reset carries
exactly the full intended set whenever that set is non-empty and within the
45,000-account subscription limit. -/
theorem C8_amended_reconnect_frame (s : WSState) (reqId : Nat) (ok : Bool) :
    (connectClear s).intendedAccountsToMonitor = s.intendedAccountsToMonitor ∧
    (connectClear s).details.activeFilterAccounts = [] ∧
    (connectClear s).details.heliusId = none ∧
    (updateHeliusSubscription s reqId ok).1.intendedAccountsToMonitor
      = s.intendedAccountsToMonitor ∧
    (s.connected = true → s.intendedAccountsToMonitor ≠ [] →
      s.intendedAccountsToMonitor.length ≤ maxAccountsPerSubscription →
      (updateHeliusSubscription (connectClear s) reqId true).2
        = some s.intendedAccountsToMonitor) := by
  refine ⟨rfl, rfl, rfl, updateHelius_intended s reqId ok, ?_⟩
  intro hc hne hlen
  unfold updateHeliusSubscription connectClear
  dsimp only
  rw [if_neg (by rw [hc]; simp)]
  rw [if_neg (by rw [sameSet_nil_of_ne s.intendedAccountsToMonitor hne]; simp)]
  rw [if_neg hne]
  rw [if_pos (show (true : Bool) = true from rfl)]
  dsimp only
  rw [if_neg (Nat.not_lt.mpr hlen)]

/-- Witness for C8 (amended) on a small connected state with stale
subscription details. -/
theorem C8_witness :
    (updateHeliusSubscription (connectClear ⟨true, [3, 1, 2], ⟨some 5, some 4, [9]⟩⟩) 11 true).2
      = some [3, 1, 2] ∧
    (connectClear (⟨true, [3, 1, 2], ⟨some 5, some 4, [9]⟩⟩ : WSState)).intendedAccountsToMonitor
      = [3, 1, 2] := by
  refine ⟨?_, (C8_amended_reconnect_frame ⟨true, [3, 1, 2], ⟨some 5, some 4, [9]⟩⟩ 11 true).1⟩
  exact (C8_amended_reconnect_frame ⟨true, [3, 1, 2], ⟨some 5, some 4, [9]⟩⟩ 11 true).2.2.2.2
    rfl (by decide) (by decide)

/-- When the intended set exceeds the subscription limit, the sent filter
list is the truncation of the intended set to the first
`MAX_ACCOUNTS_PER_SUBSCRIPTION` accounts. -/
theorem updateHelius_truncates (s : WSState) (reqId : Nat)
    (hc : s.connected = true) (ha : s.details.activeFilterAccounts = [])
    (hne : s.intendedAccountsToMonitor ≠ [])
    (hlen : maxAccountsPerSubscription < s.intendedAccountsToMonitor.length) :
    (updateHeliusSubscription s reqId true).2
      = some (s.intendedAccountsToMonitor.take maxAccountsPerSubscription) := by
  unfold updateHeliusSubscription
  dsimp only
  rw [ha]
  rw [if_neg (by rw [hc]; simp)]
  rw [if_neg (by rw [sameSet_nil_of_ne s.intendedAccountsToMonitor hne]; simp)]
  rw [if_neg hne]
  rw [if_pos (show (true : Bool) = true from rfl)]
  dsimp only
  rw [if_pos hlen]

/-- C8 counterexample: the claim says the filter-replacement request carries
exactly the full intended set.  With 45,001 intended accounts the request is
truncated to `MAX_ACCOUNTS_PER_SUBSCRIPTION = 45000` accounts
(`websocket_manager.py` lines 286-288): account 45000 is intended but
missing from the sent filter list. -/
theorem C8_counterexample :
    (updateHeliusSubscription c8Big 1 true).2 = some (List.range 45000) ∧
    45000 ∈ c8Big.intendedAccountsToMonitor ∧
    45000 ∉ List.range 45000 := by
  have hint : c8Big.intendedAccountsToMonitor = List.range 45001 := by
    simp only [c8Big]
  have hconn : c8Big.connected = true := by simp only [c8Big]
  have hact : c8Big.details.activeFilterAccounts = [] := by simp only [c8Big]
  have hne : c8Big.intendedAccountsToMonitor ≠ [] := by
    rw [hint, Ne, List.range_eq_nil]
    omega
  have hlen : maxAccountsPerSubscription < c8Big.intendedAccountsToMonitor.length := by
    rw [hint, List.length_range]
    norm_num [maxAccountsPerSubscription]
  refine ⟨?_, ?_, ?_⟩
  · rw [updateHelius_truncates c8Big 1 hconn hact hne hlen, hint, List.take_range]
    norm_num [maxAccountsPerSubscription]
  · rw [hint, List.mem_range]
    omega
  · simp only [List.mem_range]
    omega

/-- Inserting a wallet into a list-set puts it in the set. -/
theorem mem_insertNew_self (l : List String) (w : String) : w ∈ insertNew l w := by
  unfold insertNew
  split
  · assumption
  · simp

/-- Inserting a wallet into a list-set keeps the existing members. -/
theorem mem_insertNew_of_mem (l : List String) (v w : String) (h : v ∈ l) :
    v ∈ insertNew l w := by
  unfold insertNew
  split
  · exact h
  · simp [h]

/-- The mint authority, when present, long enough, and not a known program
address, is in the creator set. -/
theorem mem_creatorsOf_mint (md : TokenMeta) (a : String)
    (hma : md.mintAuthority = some a) (hlen : 30 < a.length)
    (hk : a ∉ knownProgramIds) : a ∈ creatorsOf md := by
  unfold creatorsOf
  rw [hma]
  simp only [List.foldl_cons, List.foldl_nil]
  rw [if_pos ⟨hlen, hk⟩]
  cases md.freezeAuthority with
  | none => exact mem_insertNew_self [] a
  | some b =>
    dsimp only
    by_cases hb : 30 < b.length ∧ b ∉ knownProgramIds
    · rw [if_pos hb]
      exact mem_insertNew_of_mem _ a b (mem_insertNew_self [] a)
    · rw [if_neg hb]
      exact mem_insertNew_self [] a

/-- Invariant of the team fold: the classified set stays `cls0` followed by
the team found so far, and the team found never meets `cls0`. -/
theorem teamPass_fold_spec (supplyRaw : Int) (d : Nat) (cls0 : List String) :
    ∀ (agg : List (String × Int)) (t : List String),
      (∀ w ∈ t, w ∉ cls0) →
      ((agg.foldl (teamStepF supplyRaw d) (t, cls0 ++ t)).2
          = cls0 ++ (agg.foldl (teamStepF supplyRaw d) (t, cls0 ++ t)).1) ∧
      (∀ w ∈ (agg.foldl (teamStepF supplyRaw d) (t, cls0 ++ t)).1, w ∉ cls0) := by
  intro agg
  induction agg with
  | nil => intro t ht; exact ⟨rfl, ht⟩
  | cons p rest ih =>
    intro t ht
    rw [List.foldl_cons]
    by_cases hc : 5 ≤ holdingPercent supplyRaw d p.2 ∧ p.1 ∉ cls0 ++ t ∧
        p.1 ∉ knownProgramIds
    · have hstep : teamStepF supplyRaw d (t, cls0 ++ t) p
          = (t ++ [p.1], cls0 ++ (t ++ [p.1])) := by
        unfold teamStepF
        rw [if_pos hc, List.append_assoc]
      rw [hstep]
      apply ih
      intro w hw
      rcases List.mem_append.mp hw with h | h
      · exact ht w h
      · have hw1 : w = p.1 := List.mem_singleton.mp h
        subst hw1
        intro hin
        exact hc.2.1 (List.mem_append.mpr (Or.inl hin))
    · have hstep : teamStepF supplyRaw d (t, cls0 ++ t) p = (t, cls0 ++ t) := by
        unfold teamStepF
        rw [if_neg hc]
      rw [hstep]
      exact ih t ht

/-- The team pass returns the classified set `cls0 ++ team`, and no team
member was already classified. -/
theorem teamPass_spec (supplyRaw : Int) (d : Nat) (cls0 : List String)
    (agg : List (String × Int)) :
    (teamPass supplyRaw d cls0 agg).2
        = cls0 ++ (teamPass supplyRaw d cls0 agg).1 ∧
    ∀ w ∈ (teamPass supplyRaw d cls0 agg).1, w ∉ cls0 := by
  have h := teamPass_fold_spec supplyRaw d cls0 agg [] (by simp)
  rw [List.append_nil] at h
  exact h

/-- The team step preserves the classified-set invariant in every branch. -/
theorem teamStep_spec (env : ClassEnv) (ts : Int) (d : Nat)
    (creators : List String) :
    (teamStep env ts d creators).2
        = creators ++ (teamStep env ts d creators).1 ∧
    ∀ w ∈ (teamStep env ts d creators).1, w ∉ creators := by
  unfold teamStep
  split
  · cases env.holders with
    | none => exact ⟨by simp, by simp⟩
    | some hs => exact teamPass_spec ts d creators (aggRaw hs)
  · exact ⟨by simp, by simp⟩

/-- The two window sets are subtracted from the classified set: snipers are
never classified wallets, and insiders are neither classified nor snipers. -/
theorem assignWindowSets_spec (classified : List String)
    (cands : List String × List String) :
    (∀ w ∈ (assignWindowSets classified cands).1, w ∉ classified) ∧
    (∀ w ∈ (assignWindowSets classified cands).2,
        w ∉ classified ∧ w ∉ (assignWindowSets classified cands).1) := by
  unfold assignWindowSets
  constructor
  · intro w hw
    have h := List.mem_filter.mp hw
    simpa using h.2
  · intro w hw
    have h := List.mem_filter.mp hw
    have h2 := of_decide_eq_true h.2
    rw [List.mem_append] at h2
    push_neg at h2
    exact ⟨h2.1, h2.2⟩

/-- Same disjointness for the full window step. -/
theorem windowStep_spec (swSec iwSec : Int) (listing : Option Int)
    (txs : Option (List TxRec)) (classified : List String) :
    (∀ w ∈ (windowStep swSec iwSec listing txs classified).1, w ∉ classified) ∧
    (∀ w ∈ (windowStep swSec iwSec listing txs classified).2,
        w ∉ classified ∧
        w ∉ (windowStep swSec iwSec listing txs classified).1) := by
  unfold windowStep
  cases listing with
  | none => simp
  | some t0 =>
    cases txs with
    | none => simp
    | some l =>
      exact assignWindowSets_spec classified (windowPass swSec iwSec t0 classified l)

/-- Either the run aborted on metadata, or it reached the valid branch. -/
theorem calculateClassifications_shape (env : ClassEnv) :
    (∃ msg, calculateClassifications env = metadataAbort msg) ∨
    (∃ md d ts, env.metadata = some md ∧ md.decimals = some d ∧
      md.totalSupply = some ts ∧ 0 ≤ d ∧ 0 ≤ ts ∧
      calculateClassifications env = calculateValid env md d ts) := by
  cases hmd : env.metadata with
  | none =>
    exact Or.inl ⟨"Metadata fetch failed", by simp [calculateClassifications, hmd]⟩
  | some md =>
    cases hdec : md.decimals with
    | none =>
      refine Or.inl ⟨"Core metadata missing", ?_⟩
      cases hts : md.totalSupply <;>
        simp [calculateClassifications, hmd, calculateWithMeta, hdec, hts]
    | some d =>
      cases hts : md.totalSupply with
      | none =>
        exact Or.inl ⟨"Core metadata missing",
          by simp [calculateClassifications, hmd, calculateWithMeta, hdec, hts]⟩
      | some ts =>
        by_cases hd : d < 0
        · exact Or.inl ⟨"Invalid negative decimals",
            by simp [calculateClassifications, hmd, calculateWithMeta, hdec, hts, hd]⟩
        · by_cases hts0 : ts < 0
          · exact Or.inl ⟨"Invalid negative total supply",
              by simp [calculateClassifications, hmd, calculateWithMeta, hdec, hts,
                hd, hts0]⟩
          · refine Or.inr ⟨md, d, ts, rfl, hdec, hts, by omega, by omega, ?_⟩
            simp [calculateClassifications, hmd, calculateWithMeta, hdec, hts,
              hd, hts0]

/-- The components of the valid-branch result. -/
theorem calculateValid_components (env : ClassEnv) (md : TokenMeta) (d ts : Int) :
    (calculateValid env md d ts).creator = creatorsOf md ∧
    (calculateValid env md d ts).team
      = (teamStep env ts d.toNat (creatorsOf md)).1 ∧
    (calculateValid env md d ts).sniper
      = (windowStep 15 600 env.listingTime env.transactions
          (teamStep env ts d.toNat (creatorsOf md)).2).1 ∧
    (calculateValid env md d ts).insider
      = (windowStep 15 600 env.listingTime env.transactions
          (teamStep env ts d.toNat (creatorsOf md)).2).2 := by
  exact ⟨rfl, rfl, rfl, rfl⟩

/-- C1: the four role sets of a classification run are pairwise disjoint
with strict priority creator > team > sniper > insider — a wallet in a
higher-priority set is never in a lower one; in particular a valid mint
authority is always classified creator and never team, regardless of its
holdings. -/
theorem C1_role_priority_disjoint (env : ClassEnv) :
    (∀ w, w ∈ (calculateClassifications env).creator →
        w ∉ (calculateClassifications env).team ∧
        w ∉ (calculateClassifications env).sniper ∧
        w ∉ (calculateClassifications env).insider) ∧
    (∀ w, w ∈ (calculateClassifications env).team →
        w ∉ (calculateClassifications env).sniper ∧
        w ∉ (calculateClassifications env).insider) ∧
    (∀ w, w ∈ (calculateClassifications env).sniper →
        w ∉ (calculateClassifications env).insider) ∧
    (∀ md a d ts, env.metadata = some md → md.decimals = some d →
      md.totalSupply = some ts → 0 ≤ d → 0 ≤ ts →
      md.mintAuthority = some a → 30 < a.length → a ∉ knownProgramIds →
      a ∈ (calculateClassifications env).creator ∧
      a ∉ (calculateClassifications env).team) := by
  have main : ∀ (md : TokenMeta) (d ts : Int),
      calculateClassifications env = calculateValid env md d ts →
      (∀ w, w ∈ (calculateClassifications env).creator →
          w ∉ (calculateClassifications env).team ∧
          w ∉ (calculateClassifications env).sniper ∧
          w ∉ (calculateClassifications env).insider) ∧
      (∀ w, w ∈ (calculateClassifications env).team →
          w ∉ (calculateClassifications env).sniper ∧
          w ∉ (calculateClassifications env).insider) ∧
      (∀ w, w ∈ (calculateClassifications env).sniper →
          w ∉ (calculateClassifications env).insider) := by
    intro md d ts hcalc
    obtain ⟨hcr, htm, hsn, hin⟩ := calculateValid_components env md d ts
    have hteam := teamStep_spec env ts d.toNat (creatorsOf md)
    have hwin := windowStep_spec 15 600 env.listingTime env.transactions
      (teamStep env ts d.toNat (creatorsOf md)).2
    rw [hcalc, hcr, htm, hsn, hin]
    refine ⟨?_, ?_, ?_⟩
    · intro w hw
      have hwc : w ∈ (teamStep env ts d.toNat (creatorsOf md)).2 := by
        rw [hteam.1]
        exact List.mem_append.mpr (Or.inl hw)
      refine ⟨fun h => hteam.2 w h hw, fun h => hwin.1 w h hwc,
        fun h => (hwin.2 w h).1 hwc⟩
    · intro w hw
      have hwc : w ∈ (teamStep env ts d.toNat (creatorsOf md)).2 := by
        rw [hteam.1]
        exact List.mem_append.mpr (Or.inr hw)
      exact ⟨fun h => hwin.1 w h hwc, fun h => (hwin.2 w h).1 hwc⟩
    · intro w hw h
      exact (hwin.2 w h).2 hw
  rcases calculateClassifications_shape env with ⟨msg, hab⟩ | ⟨md, d, ts, hmd, hdec, hts, hd, hts0, hcalc⟩
  · rw [hab]
    refine ⟨?_, ?_, ?_, ?_⟩
    · intro w hw; exact absurd hw (by simp [metadataAbort])
    · intro w hw; exact absurd hw (by simp [metadataAbort])
    · intro w hw; exact absurd hw (by simp [metadataAbort])
    · intro md a d ts hmd hdec hts hd hts0 hma hlen hk
      exfalso
      have h := congrArg Classifications.error hab
      simp only [calculateClassifications, hmd, calculateWithMeta, hdec, hts] at h
      rw [if_neg (by omega), if_neg (by omega)] at h
      simp [calculateValid, metadataAbort] at h
  · obtain ⟨h1, h2, h3⟩ := main md d ts hcalc
    refine ⟨h1, h2, h3, ?_⟩
    intro md' a d' ts' hmd' hdec' hts' hd' hts0' hma hlen hk
    have hmdeq : md' = md := by
      rw [hmd'] at hmd
      exact Option.some.inj hmd
    rw [hmdeq] at hma
    obtain ⟨hcr, htm, _, _⟩ := calculateValid_components env md d ts
    have hteam := teamStep_spec env ts d.toNat (creatorsOf md)
    have ha : a ∈ creatorsOf md := mem_creatorsOf_mint md a hma hlen hk
    rw [hcalc, hcr, htm]
    exact ⟨ha, fun h => hteam.2 a h ha⟩

/-- Witness for C1: the spec example — supply 1,000,000,000,000 raw,
decimals 6, the mint authority holding 600,000,000,000 raw (60 percent,
well above the 5 percent team threshold) — is classified creator and is not
in the team set. -/
theorem C1_witness :
    "AuthorityWallet1111111111111111w"
      ∈ (calculateClassifications
          ⟨some ⟨some 6, some 1000000000000,
                 some "AuthorityWallet1111111111111111w", none⟩,
           some [⟨some "AuthorityWallet1111111111111111w", some 600000000000⟩],
           none, none⟩).creator ∧
    "AuthorityWallet1111111111111111w"
      ∉ (calculateClassifications
          ⟨some ⟨some 6, some 1000000000000,
                 some "AuthorityWallet1111111111111111w", none⟩,
           some [⟨some "AuthorityWallet1111111111111111w", some 600000000000⟩],
           none, none⟩).team := by
  exact (C1_role_priority_disjoint
      ⟨some ⟨some 6, some 1000000000000,
             some "AuthorityWallet1111111111111111w", none⟩,
       some [⟨some "AuthorityWallet1111111111111111w", some 600000000000⟩],
       none, none⟩).2.2.2
    ⟨some 6, some 1000000000000, some "AuthorityWallet1111111111111111w", none⟩
    "AuthorityWallet1111111111111111w" 6 1000000000000
    rfl rfl rfl (by decide) (by decide) rfl (by decide) (by decide)

/-- Witness for C10: on the freshly initialized (not yet started) system
the enqueue call leaves the state unchanged. -/
theorem C10_witness :
    queueNotification nsInitial ⟨7, "MintX", "alert"⟩ = nsInitial ∧
    some (⟨7, "MintX", "alert"⟩ : RTAlert) ∉
      (queueNotification nsInitial ⟨7, "MintX", "alert"⟩).queue := by
  refine ⟨(C10_discard_when_not_running nsInitial ⟨7, "MintX", "alert"⟩).1 rfl, ?_⟩
  exact (C10_discard_when_not_running nsInitial ⟨7, "MintX", "alert"⟩).2.2.2 rfl
    (by decide)

/-- The dict update adds the amount at the key and nowhere else. -/
theorem valueAt_addRaw (l : List (String × Int)) (o w : String) (a : Int) :
    valueAt (addRaw l o a) w = valueAt l w + (if o = w then a else 0) := by
  induction l with
  | nil =>
    by_cases h : o = w <;> simp [addRaw, valueAt, h]
  | cons p rest ih =>
    by_cases h : p.1 = o
    · rw [show addRaw (p :: rest) o a = (p.1, p.2 + a) :: rest by simp [addRaw, h]]
      by_cases hw : p.1 = w
      · have how : o = w := by rw [← h]; exact hw
        simp only [valueAt, if_pos hw, if_pos how]
        omega
      · have how : o ≠ w := fun hh => hw (h.trans hh)
        simp only [valueAt, if_neg hw, if_neg how]
        omega
    · rw [show addRaw (p :: rest) o a = p :: addRaw rest o a by simp [addRaw, h]]
      simp only [valueAt, ih]
      omega

/-- Keys after a dict update: the old keys plus the updated key. -/
theorem keys_addRaw (l : List (String × Int)) (o w : String) (a : Int) :
    w ∈ (addRaw l o a).map Prod.fst ↔ w ∈ l.map Prod.fst ∨ w = o := by
  induction l with
  | nil => simp [addRaw]
  | cons p rest ih =>
    by_cases h : p.1 = o
    · rw [show addRaw (p :: rest) o a = (p.1, p.2 + a) :: rest by simp [addRaw, h]]
      simp only [List.map_cons, List.mem_cons]
      constructor
      · rintro (hh | hh)
        · exact Or.inl (Or.inl hh)
        · exact Or.inl (Or.inr hh)
      · rintro ((hh | hh) | hh)
        · exact Or.inl hh
        · exact Or.inr hh
        · exact Or.inl (by rw [hh, ← h])
    · rw [show addRaw (p :: rest) o a = p :: addRaw rest o a by simp [addRaw, h]]
      simp only [List.map_cons, List.mem_cons, ih]
      tauto

/-- A dict update preserves key uniqueness. -/
theorem nodup_keys_addRaw (l : List (String × Int)) (o : String) (a : Int)
    (h : (l.map Prod.fst).Nodup) : ((addRaw l o a).map Prod.fst).Nodup := by
  induction l with
  | nil => simp [addRaw]
  | cons p rest ih =>
    rw [List.map_cons, List.nodup_cons] at h
    by_cases hp : p.1 = o
    · rw [show addRaw (p :: rest) o a = (p.1, p.2 + a) :: rest by simp [addRaw, hp]]
      rw [List.map_cons, List.nodup_cons]
      exact ⟨h.1, h.2⟩
    · rw [show addRaw (p :: rest) o a = p :: addRaw rest o a by simp [addRaw, hp]]
      rw [List.map_cons, List.nodup_cons]
      refine ⟨?_, ih h.2⟩
      intro hmem
      rcases (keys_addRaw rest o p.1 a).mp hmem with hh | hh
      · exact h.1 hh
      · exact hp hh

/-- A key that is absent reads as 0. -/
theorem valueAt_eq_zero (l : List (String × Int)) (w : String)
    (h : w ∉ l.map Prod.fst) : valueAt l w = 0 := by
  induction l with
  | nil => rfl
  | cons p rest ih =>
    rw [List.map_cons, List.mem_cons] at h
    push_neg at h
    show (if p.1 = w then p.2 else 0) + valueAt rest w = 0
    rw [if_neg (fun hh => h.1 hh.symm), ih h.2]
    omega

/-- With unique keys, association-list membership is exactly key membership
plus the stored value. -/
theorem mem_assoc_iff (l : List (String × Int)) (w : String) (a : Int)
    (h : (l.map Prod.fst).Nodup) :
    ((w, a) ∈ l ↔ w ∈ l.map Prod.fst ∧ a = valueAt l w) := by
  induction l with
  | nil => simp
  | cons p rest ih =>
    rw [List.map_cons, List.nodup_cons] at h
    rw [List.mem_cons, List.map_cons, List.mem_cons]
    by_cases hw : w = p.1
    · have hv : valueAt (p :: rest) w = p.2 := by
        show (if p.1 = w then p.2 else 0) + valueAt rest w = p.2
        rw [if_pos hw.symm, valueAt_eq_zero rest w (by rw [hw]; exact h.1)]
        omega
      rw [hv]
      constructor
      · rintro (hh | hh)
        · exact ⟨Or.inl hw, congrArg Prod.snd hh⟩
        · refine absurd ?_ h.1
          rw [← hw]
          exact List.mem_map_of_mem Prod.fst hh
      · rintro ⟨_, rfl⟩
        refine Or.inl ?_
        rw [hw]
    · have hv : valueAt (p :: rest) w = valueAt rest w := by
        show (if p.1 = w then p.2 else 0) + valueAt rest w = valueAt rest w
        rw [if_neg (fun hh => hw hh.symm)]
        omega
      rw [hv, ih h.2]
      constructor
      · rintro (hh | hh)
        · exact absurd (congrArg Prod.fst hh) hw
        · exact ⟨Or.inr hh.1, hh.2⟩
      · rintro ⟨hh | hh, hv2⟩
        · exact absurd hh hw
        · exact Or.inr ⟨hh, hv2⟩

/-- One aggregation step adds exactly the entry contribution. -/
theorem valueAt_aggStep (acc : List (String × Int)) (h : HolderAcc)
    (w : String) :
    valueAt (aggStep acc h) w = valueAt acc w + posContribution h w := by
  unfold aggStep posContribution
  cases ho : h.owner with
  | none => simp
  | some o =>
    cases ha : h.amount with
    | none => simp
    | some a =>
      dsimp only
      by_cases hpos : 0 < a
      · rw [if_pos hpos, valueAt_addRaw]
        by_cases how : o = w
        · rw [if_pos how, if_pos ⟨how, hpos⟩]
        · rw [if_neg how, if_neg (fun hh => how hh.1)]
      · rw [if_neg hpos, if_neg (fun hh => hpos hh.2)]
        omega

/-- Keys after one aggregation step. -/
theorem keys_aggStep (acc : List (String × Int)) (h : HolderAcc) (w : String) :
    (w ∈ (aggStep acc h).map Prod.fst ↔
      w ∈ acc.map Prod.fst ∨
      (h.owner = some w ∧ ∃ a, h.amount = some a ∧ 0 < a)) := by
  unfold aggStep
  cases ho : h.owner with
  | none => simp
  | some o =>
    cases ha : h.amount with
    | none => simp
    | some a =>
      dsimp only
      by_cases hpos : 0 < a
      · rw [if_pos hpos, keys_addRaw]
        constructor
        · rintro (hh | hh)
          · exact Or.inl hh
          · exact Or.inr ⟨by rw [hh], a, rfl, hpos⟩
        · rintro (hh | ⟨hh, _⟩)
          · exact Or.inl hh
          · exact Or.inr (Option.some.inj hh).symm
      · rw [if_neg hpos]
        constructor
        · exact Or.inl
        · rintro (hh | ⟨_, a2, ha2, hpos2⟩)
          · exact hh
          · exact absurd (Option.some.inj ha2 ▸ hpos2) hpos

/-- One aggregation step preserves key uniqueness. -/
theorem nodup_keys_aggStep (acc : List (String × Int)) (h : HolderAcc)
    (hacc : (acc.map Prod.fst).Nodup) :
    ((aggStep acc h).map Prod.fst).Nodup := by
  unfold aggStep
  cases h.owner with
  | none => exact hacc
  | some o =>
    cases h.amount with
    | none => exact hacc
    | some a =>
      dsimp only
      by_cases hpos : 0 < a
      · rw [if_pos hpos]
        exact nodup_keys_addRaw acc o a hacc
      · rw [if_neg hpos]
        exact hacc

/-- The aggregated value of the fold is the accumulated value plus the
positive-balance sum of the remaining entries. -/
theorem aggRaw_fold_valueAt (w : String) :
    ∀ (hs : List HolderAcc) (acc : List (String × Int)),
      valueAt (hs.foldl aggStep acc) w = valueAt acc w + posOwnerSum hs w := by
  intro hs
  induction hs with
  | nil => intro acc; simp [posOwnerSum]
  | cons h rest ih =>
    intro acc
    rw [List.foldl_cons, ih, valueAt_aggStep]
    show valueAt acc w + posContribution h w + posOwnerSum rest w
        = valueAt acc w + (posContribution h w + posOwnerSum rest w)
    omega

/-- Keys of the fold: accumulated keys plus owners with a positive entry. -/
theorem aggRaw_fold_keys (w : String) :
    ∀ (hs : List HolderAcc) (acc : List (String × Int)),
      (w ∈ (hs.foldl aggStep acc).map Prod.fst ↔
        w ∈ acc.map Prod.fst ∨ ∃ h ∈ hs, h.owner = some w ∧
          ∃ a, h.amount = some a ∧ 0 < a) := by
  intro hs
  induction hs with
  | nil => intro acc; simp
  | cons h rest ih =>
    intro acc
    rw [List.foldl_cons, ih, keys_aggStep]
    constructor
    · rintro ((hh | hh) | ⟨h2, hmem, hh⟩)
      · exact Or.inl hh
      · exact Or.inr ⟨h, List.mem_cons_self h rest, hh⟩
      · exact Or.inr ⟨h2, List.mem_cons_of_mem h hmem, hh⟩
    · rintro (hh | ⟨h2, hmem, hh⟩)
      · exact Or.inl (Or.inl hh)
      · rcases List.mem_cons.mp hmem with rfl | hmem2
        · exact Or.inl (Or.inr hh)
        · exact Or.inr ⟨h2, hmem2, hh⟩

/-- The fold preserves key uniqueness. -/
theorem aggRaw_fold_nodup :
    ∀ (hs : List HolderAcc) (acc : List (String × Int)),
      (acc.map Prod.fst).Nodup → ((hs.foldl aggStep acc).map Prod.fst).Nodup := by
  intro hs
  induction hs with
  | nil => intro acc h; exact h
  | cons h rest ih =>
    intro acc hacc
    rw [List.foldl_cons]
    exact ih (aggStep acc h) (nodup_keys_aggStep acc h hacc)

/-- The aggregation has unique owner keys. -/
theorem aggRaw_keys_nodup (hs : List HolderAcc) :
    ((aggRaw hs).map Prod.fst).Nodup := by
  unfold aggRaw
  exact aggRaw_fold_nodup hs [] (by simp)

/-- The aggregated balance of a wallet is exactly the sum of its positive
raw balances. -/
theorem aggRaw_valueAt (hs : List HolderAcc) (w : String) :
    valueAt (aggRaw hs) w = posOwnerSum hs w := by
  unfold aggRaw
  rw [aggRaw_fold_valueAt w hs []]
  show valueAt [] w + posOwnerSum hs w = posOwnerSum hs w
  simp [valueAt]

/-- A zero holding is zero percent. -/
theorem holdingPercent_zero (supplyRaw : Int) (d : Nat) :
    holdingPercent supplyRaw d 0 = 0 := by
  unfold holdingPercent
  norm_num

/-- Membership characterization of the team fold over unique-key aggregated
balances: a wallet joins exactly when it was already in the accumulator or
its entry is at or above the threshold and it is neither already classified
nor a known program address. -/
theorem teamPass_mem_fold (supplyRaw : Int) (d : Nat) (cls0 : List String) :
    ∀ (agg : List (String × Int)) (t : List String) (w : String),
      (agg.map Prod.fst).Nodup →
      (∀ x ∈ agg, x.1 ∉ t) →
      (∀ x ∈ t, x ∉ cls0) →
      (w ∈ (agg.foldl (teamStepF supplyRaw d) (t, cls0 ++ t)).1 ↔
        w ∈ t ∨ ∃ a, (w, a) ∈ agg ∧ 5 ≤ holdingPercent supplyRaw d a ∧
          w ∉ cls0 ∧ w ∉ knownProgramIds) := by
  intro agg
  induction agg with
  | nil =>
    intro t w _ _ _
    simp
  | cons p rest ih =>
    intro t w hnd hkt htc
    rw [List.map_cons, List.nodup_cons] at hnd
    rw [List.foldl_cons]
    by_cases hc : 5 ≤ holdingPercent supplyRaw d p.2 ∧ p.1 ∉ cls0 ++ t ∧
        p.1 ∉ knownProgramIds
    · have hstep : teamStepF supplyRaw d (t, cls0 ++ t) p
          = (t ++ [p.1], cls0 ++ (t ++ [p.1])) := by
        unfold teamStepF
        rw [if_pos hc, List.append_assoc]
      rw [hstep]
      have hp1cls : p.1 ∉ cls0 := fun hh => hc.2.1 (List.mem_append.mpr (Or.inl hh))
      have hkt2 : ∀ x ∈ rest, x.1 ∉ t ++ [p.1] := by
        intro x hx
        rw [List.mem_append, List.mem_singleton]
        push_neg
        refine ⟨hkt x (List.mem_cons_of_mem p hx), ?_⟩
        intro hh
        exact hnd.1 (by rw [← hh]; exact List.mem_map_of_mem Prod.fst hx)
      have htc2 : ∀ x ∈ t ++ [p.1], x ∉ cls0 := by
        intro x hx
        rcases List.mem_append.mp hx with hx | hx
        · exact htc x hx
        · rw [List.mem_singleton] at hx
          rw [hx]
          exact hp1cls
      rw [ih (t ++ [p.1]) w hnd.2 hkt2 htc2]
      constructor
      · rintro (hw | ⟨a, ha, hpct, hwc, hwk⟩)
        · rcases List.mem_append.mp hw with hw | hw
          · exact Or.inl hw
          · rw [List.mem_singleton] at hw
            subst hw
            refine Or.inr ⟨p.2, ?_, hc.1, hp1cls, hc.2.2⟩
            rw [Prod.mk.eta]
            exact List.mem_cons_self p rest
        · exact Or.inr ⟨a, List.mem_cons_of_mem p ha, hpct, hwc, hwk⟩
      · rintro (hw | ⟨a, ha, hpct, hwc, hwk⟩)
        · exact Or.inl (List.mem_append.mpr (Or.inl hw))
        · rcases List.mem_cons.mp ha with ha | ha
          · have hw1 : w = p.1 := congrArg Prod.fst ha
            refine Or.inl (List.mem_append.mpr (Or.inr ?_))
            rw [hw1]
            exact List.mem_singleton_self p.1
          · exact Or.inr ⟨a, ha, hpct, hwc, hwk⟩
    · have hstep : teamStepF supplyRaw d (t, cls0 ++ t) p = (t, cls0 ++ t) := by
        unfold teamStepF
        rw [if_neg hc]
      rw [hstep]
      rw [ih t w hnd.2 (fun x hx => hkt x (List.mem_cons_of_mem p hx)) htc]
      constructor
      · rintro (hw | ⟨a, ha, hpct, hwc, hwk⟩)
        · exact Or.inl hw
        · exact Or.inr ⟨a, List.mem_cons_of_mem p ha, hpct, hwc, hwk⟩
      · rintro (hw | ⟨a, ha, hpct, hwc, hwk⟩)
        · exact Or.inl hw
        · rcases List.mem_cons.mp ha with ha | ha
          · have hw1 : w = p.1 := congrArg Prod.fst ha
            have ha2 : a = p.2 := congrArg Prod.snd ha
            rw [ha2] at hpct
            by_cases hpt : w ∈ t
            · exact Or.inl hpt
            · exfalso
              apply hc
              refine ⟨hpct, ?_, by rw [← hw1]; exact hwk⟩
              rw [List.mem_append]
              push_neg
              exact ⟨by rw [← hw1]; exact hwc, by rw [← hw1]; exact hpt⟩
          · exact Or.inr ⟨a, ha, hpct, hwc, hwk⟩

/-- Membership in the team pass from empty accumulator. -/
theorem teamPass_mem (supplyRaw : Int) (d : Nat) (cls0 : List String)
    (agg : List (String × Int)) (w : String)
    (hnd : (agg.map Prod.fst).Nodup) :
    (w ∈ (teamPass supplyRaw d cls0 agg).1 ↔
      ∃ a, (w, a) ∈ agg ∧ 5 ≤ holdingPercent supplyRaw d a ∧
        w ∉ cls0 ∧ w ∉ knownProgramIds) := by
  have h := teamPass_mem_fold supplyRaw d cls0 agg [] w hnd (by simp) (by simp)
  rw [List.append_nil] at h
  unfold teamPass
  rw [h]
  simp

/-- C4: for a mint with positive total supply and a fetched holder
snapshot, team classification aggregates the positive raw balances by
owning wallet and includes an owner (not a creator, not a known program
address) exactly when its aggregated percentage of total supply is at or
above the 5 percent threshold, inclusively. -/
theorem C4_team_threshold (env : ClassEnv) (md : TokenMeta) (d ts : Int)
    (hs : List HolderAcc) (w : String)
    (hmd : env.metadata = some md) (hdec : md.decimals = some d) (hd0 : 0 ≤ d)
    (hts : md.totalSupply = some ts) (hts0 : 0 < ts)
    (hh : env.holders = some hs)
    (hw1 : w ∉ creatorsOf md) (hw2 : w ∉ knownProgramIds) :
    (w ∈ (calculateClassifications env).team ↔
      5 ≤ holdingPercent ts d.toNat (posOwnerSum hs w)) := by
  have hcalc : calculateClassifications env = calculateValid env md d ts := by
    simp only [calculateClassifications, hmd, calculateWithMeta, hdec, hts]
    rw [if_neg (by omega), if_neg (by omega)]
  rw [hcalc, (calculateValid_components env md d ts).2.1]
  have hsup : 0 < (ts : ℚ) / 10 ^ (d.toNat) := by
    have h1 : (0 : ℚ) < (ts : ℚ) := by exact_mod_cast hts0
    positivity
  unfold teamStep
  rw [if_pos hsup, hh]
  dsimp only
  rw [teamPass_mem ts d.toNat (creatorsOf md) (aggRaw hs) w (aggRaw_keys_nodup hs)]
  constructor
  · rintro ⟨a, ha, hpct, _, _⟩
    have hmem := (mem_assoc_iff (aggRaw hs) w a (aggRaw_keys_nodup hs)).mp ha
    rw [aggRaw_valueAt] at hmem
    rw [← hmem.2]
    exact hpct
  · intro hpct
    by_cases hk : w ∈ (aggRaw hs).map Prod.fst
    · refine ⟨posOwnerSum hs w, ?_, hpct, hw1, hw2⟩
      exact (mem_assoc_iff (aggRaw hs) w _ (aggRaw_keys_nodup hs)).mpr
        ⟨hk, (aggRaw_valueAt hs w).symm⟩
    · exfalso
      have h0 : posOwnerSum hs w = 0 := by
        rw [← aggRaw_valueAt hs w]
        exact valueAt_eq_zero _ w hk
      rw [h0, holdingPercent_zero] at hpct
      norm_num at hpct

/-- Witness for C4: supply 10,000 raw, decimals 0; wallet A owns two
accounts of 300 and 200 (aggregated 500, exactly 5.00 percent) plus a
discarded non-positive entry, wallet B owns 499 (4.99 percent): A is in
the team set and B is not. -/
theorem C4_witness :
    "A" ∈ (calculateClassifications
        ⟨some ⟨some 0, some 10000, none, none⟩,
         some [⟨some "A", some 300⟩, ⟨some "A", some 200⟩,
               ⟨some "A", some (-100)⟩, ⟨some "B", some 499⟩],
         none, none⟩).team ∧
    "B" ∉ (calculateClassifications
        ⟨some ⟨some 0, some 10000, none, none⟩,
         some [⟨some "A", some 300⟩, ⟨some "A", some 200⟩,
               ⟨some "A", some (-100)⟩, ⟨some "B", some 499⟩],
         none, none⟩).team := by
  have hA : posOwnerSum [⟨some "A", some 300⟩, ⟨some "A", some 200⟩,
      ⟨some "A", some (-100)⟩, ⟨some "B", some 499⟩] "A" = 500 := by decide
  have hB : posOwnerSum [⟨some "A", some 300⟩, ⟨some "A", some 200⟩,
      ⟨some "A", some (-100)⟩, ⟨some "B", some 499⟩] "B" = 499 := by decide
  constructor
  · apply (C4_team_threshold
      ⟨some ⟨some 0, some 10000, none, none⟩,
       some [⟨some "A", some 300⟩, ⟨some "A", some 200⟩,
             ⟨some "A", some (-100)⟩, ⟨some "B", some 499⟩],
       none, none⟩
      ⟨some 0, some 10000, none, none⟩ 0 10000
      [⟨some "A", some 300⟩, ⟨some "A", some 200⟩,
       ⟨some "A", some (-100)⟩, ⟨some "B", some 499⟩] "A"
      rfl rfl (by decide) rfl (by decide) rfl (by decide) (by decide)).mpr
    rw [hA]
    norm_num [holdingPercent]
  · intro hb
    have h := (C4_team_threshold
      ⟨some ⟨some 0, some 10000, none, none⟩,
       some [⟨some "A", some 300⟩, ⟨some "A", some 200⟩,
             ⟨some "A", some (-100)⟩, ⟨some "B", some 499⟩],
       none, none⟩
      ⟨some 0, some 10000, none, none⟩ 0 10000
      [⟨some "A", some 300⟩, ⟨some "A", some 200⟩,
       ⟨some "A", some (-100)⟩, ⟨some "B", some 499⟩] "B"
      rfl rfl (by decide) rfl (by decide) rfl (by decide) (by decide)).mp hb
    rw [hB] at h
    norm_num [holdingPercent] at h

/-- A fold of the lookup over entries that never match keeps its value. -/
theorem mapAmt_fold_eq (o m : String) :
    ∀ (l : List BalEntry) (z : Int),
      (∀ b ∈ l, ¬(b.owner = some o ∧ b.mint = some m ∧
          truthy b.owner = true ∧ truthy b.mint = true)) →
      l.foldl (mapStep o m) z = z := by
  intro l
  induction l with
  | nil => intro z _; rfl
  | cons b rest ih =>
    intro z h
    rw [List.foldl_cons]
    have hstep : mapStep o m z b = z := by
      unfold mapStep
      rw [if_neg (h b (List.mem_cons_self b rest))]
    rw [hstep]
    exact ih z (fun b2 hb2 => h b2 (List.mem_cons_of_mem b hb2))

/-- An entry carrying a truthy owner/mint pair registers that key in
`all_keys`. -/
theorem mem_ownerMintKeys (pre post : List BalEntry) (b : BalEntry)
    (hb : b ∈ pre ++ post) (o m : String)
    (hbo : b.owner = some o) (hbm : b.mint = some m)
    (ho : o ≠ "") (hm : m ≠ "") :
    (o, m) ∈ ownerMintKeys pre post := by
  unfold ownerMintKeys
  rw [List.mem_dedup]
  apply List.mem_filterMap.mpr
  refine ⟨b, hb, ?_⟩
  rw [hbo, hbm]
  dsimp only
  rw [if_pos ⟨ho, hm⟩]

/-- A key that is not among the owner/mint keys reads as 0 in both maps. -/
theorem mapAmt_zero_of_not_key (pre post l : List BalEntry) (o m : String)
    (hsub : ∀ b ∈ l, b ∈ pre ++ post)
    (hk : (o, m) ∉ ownerMintKeys pre post) :
    mapAmt l o m = 0 := by
  unfold mapAmt
  apply mapAmt_fold_eq
  intro b hb hcond
  apply hk
  have ho : o ≠ "" := by
    have h1 := hcond.2.2.1
    rw [hcond.1] at h1
    simpa [truthy] using h1
  have hm : m ≠ "" := by
    have h1 := hcond.2.2.2
    rw [hcond.2.1] at h1
    simpa [truthy] using h1
  exact mem_ownerMintKeys pre post b (hsub b hb) o m hcond.1 hcond.2.1 ho hm

/-- When the diff pass runs, the output is exactly the non-zero
post-minus-pre deltas of the owner-keyed maps. -/
theorem calcBalanceChanges_mem (pre post : List BalEntry)
    (t : String × String × Int) (hrun : diffPassRuns pre post = true) :
    (t ∈ calcBalanceChanges pre post ↔
      t.2.2 = mapAmt post t.1 t.2.1 - mapAmt pre t.1 t.2.1 ∧ t.2.2 ≠ 0) := by
  unfold calcBalanceChanges
  rw [if_pos hrun, List.mem_filterMap]
  constructor
  · rintro ⟨k, hk, hf⟩
    dsimp only at hf
    by_cases hd : mapAmt post k.1 k.2 - mapAmt pre k.1 k.2 ≠ 0
    · rw [if_pos hd] at hf
      have heq := Option.some.inj hf
      rw [← heq]
      exact ⟨rfl, hd⟩
    · rw [if_neg hd] at hf
      exact absurd hf (by simp)
  · rintro ⟨hdef, hne⟩
    refine ⟨(t.1, t.2.1), ?_, ?_⟩
    · by_contra hk
      have h1 : mapAmt pre t.1 t.2.1 = 0 :=
        mapAmt_zero_of_not_key pre post pre t.1 t.2.1
          (fun b hb => List.mem_append.mpr (Or.inl hb)) hk
      have h2 : mapAmt post t.1 t.2.1 = 0 :=
        mapAmt_zero_of_not_key pre post post t.1 t.2.1
          (fun b hb => List.mem_append.mpr (Or.inr hb)) hk
      rw [h1, h2] at hdef
      exact hne (by omega)
    · dsimp only
      rw [← hdef, if_pos hne]

/-- C9 (amended): a transaction whose on-chain execution failed produces no
events; every emitted delta is non-zero; owner-less entries contribute
nothing — but the per-key diff pass runs only when some post entry with
accountIndex and mint present resolves in the owner index map: when it
runs, the output is exactly the non-zero owner-keyed deltas, and otherwise
no deltas are produced even if owner-carrying pre entries imply some. -/
theorem C9_amended_extractor (tx : TxData) (pre post : List BalEntry)
    (t : String × String × Int) :
    ((tx.meta.getD emptyMeta).err.isSome = true →
      parseTransactionForEvent tx = ParseResult.skipped) ∧
    (t ∈ calcBalanceChanges pre post → t.2.2 ≠ 0) ∧
    (diffPassRuns pre post = true →
      (t ∈ calcBalanceChanges pre post ↔
        t.2.2 = mapAmt post t.1 t.2.1 - mapAmt pre t.1 t.2.1 ∧ t.2.2 ≠ 0)) ∧
    (diffPassRuns pre post = false → calcBalanceChanges pre post = []) := by
  have hfalse : diffPassRuns pre post = false → calcBalanceChanges pre post = [] := by
    intro h
    unfold calcBalanceChanges
    rw [if_neg (by rw [h]; simp)]
  refine ⟨?_, ?_, fun hrun => calcBalanceChanges_mem pre post t hrun, hfalse⟩
  · intro h
    simp only [parseTransactionForEvent]
    rw [if_pos h]
  · intro ht
    cases hrun : diffPassRuns pre post with
    | false =>
      rw [hfalse hrun] at ht
      exact absurd ht (by simp)
    | true => exact ((calcBalanceChanges_mem pre post t hrun).mp ht).2

/-- C9 counterexample: the claim says entries lacking owner information are
skipped without rejecting the rest.  With one owner-carrying pre entry
(wallet A, 100 raw) and a single post entry that lacks an owner at a
different account index, the diff pass never runs: the extractor emits no
deltas although the owner-keyed maps imply the non-zero delta -100 for
wallet A. -/
theorem C9_counterexample :
    calcBalanceChanges [⟨some 0, some "M", some "A", 100⟩]
        [⟨some 1, some "M", none, 50⟩] = [] ∧
    mapAmt [⟨some 1, some "M", none, 50⟩] "A" "M"
        - mapAmt [⟨some 0, some "M", some "A", 100⟩] "A" "M" = -100 := by
  decide

/-- Witness for C9 (amended): a transaction with an execution error
produces no event, and a simple A-sells-70 pre/post pair emits exactly its
non-zero delta. -/
theorem C9_witness :
    parseTransactionForEvent
        ⟨some ⟨some "InstructionError", [], []⟩, ["sig1"], some 10⟩
      = ParseResult.skipped ∧
    ("A", "M", (-70 : Int)) ∈ calcBalanceChanges
        [⟨some 0, some "M", some "A", 100⟩] [⟨some 0, some "M", some "A", 30⟩] := by
  constructor
  · exact (C9_amended_extractor
      ⟨some ⟨some "InstructionError", [], []⟩, ["sig1"], some 10⟩
      [] [] ("", "", 0)).1 (by decide)
  · exact ((C9_amended_extractor ⟨none, [], none⟩
      [⟨some 0, some "M", some "A", 100⟩] [⟨some 0, some "M", some "A", 30⟩]
      ("A", "M", -70)).2.2.1 (by decide)).mpr (by decide)

end Sec
